import Mathlib

set_option maxHeartbeats 1000000

/-!
Verification of the `ModelQuality` function of `Model_Selection.py`.

The function estimates, by Monte Carlo simulation, the Type I error rate and
the power of several modelling approaches for a switchback experiment.  This
file gives a shallow embedding of the function over an abstract tabular
dataset and proves the behavioural claims about it.

Modelling conventions:
  - a dataframe row is a `Row` (timestamp, location, outcome, control values);
    timestamps are natural numbers and `pd.to_datetime` is the identity;
  - `pd.Grouper(freq=Frequency)` floors a timestamp to a period bucket,
    modelled as division by `freq`;
  - the statsmodels estimators are external black boxes: a fit is recorded as
    a `FitCall` (endogenous column, treatment column, covariance option or
    mixed-model grouping) and an oracle `pv : FitCall → ℚ` supplies the
    p-value of the treatment ("variant") coefficient of that fit;
  - the numpy random stream is an abstract stream of fair-coin Booleans
    `coins : Nat → Bool`, consumed one coin per cluster per replicate;
  - `np.mean` of an empty collection is NaN; `npMean` returns `none` there,
    and `some q` for a nonempty mean, since NaN has no rational counterpart;
  - raised exceptions are `Except.error` values, and an `MQTrace` records the
    side work (copying, random draws, model fits) the call performed.
-/

/-- One input observation (a dataframe row): timestamp, location identifier,
outcome value, and the control-variable values (carried but unused by the
estimators). -/
structure Row where
  time : Nat
  loc : Nat
  outcome : ℚ
  controls : List ℚ
deriving DecidableEq

/-- Flooring a timestamp to its period bucket, the standard period-bucketing
convention of `pd.Grouper(key=time_var, freq=Frequency)`. -/
def bucket (freq : Nat) (t : Nat) : Nat := t / freq

/-- Order-level cluster key of a row: the groupby key
`(Grouper(time_var), location_var)` of the order-level branch. -/
def clusterKey (freq : Nat) (r : Row) : Nat × Nat := (bucket freq r.time, r.loc)

/-- Aggregated-branch cluster key of a row: the groupby key
`(location_var, Grouper(time_var))` of the aggregation branch. -/
def aggKey (freq : Nat) (r : Row) : Nat × Nat := (r.loc, bucket freq r.time)

/-- Lexicographic order on cluster keys; pandas sorts groupby keys. -/
def keyLe (a b : Nat × Nat) : Prop := a.1 < b.1 ∨ (a.1 = b.1 ∧ a.2 ≤ b.2)

instance : DecidableRel keyLe := fun a b => by unfold keyLe; exact inferInstance

/-- The distinct order-level cluster keys in sorted group order.  The code
derives them through `groupby(...).apply`, whose group ordinals label the rows
(column `period_city`), and `unique_PeriodCity` enumerates those ordinals. -/
def uniqueKeys (freq : Nat) (rows : List Row) : List (Nat × Nat) :=
  (List.insertionSort keyLe (rows.map (clusterKey freq))).dedup

/-- `unique_PeriodCity.size`: the number of distinct order-level clusters. -/
def numClusters (freq : Nat) (rows : List Row) : Nat :=
  (uniqueKeys freq rows).length

/-- Position of a key in a key list (0 when absent past the end). -/
def idxOf (a : Nat × Nat) : List (Nat × Nat) → Nat
  | [] => 0
  | b :: l => if a = b then 0 else idxOf a l + 1

/-- The `period_city` value of a row: the ordinal of its cluster among the
sorted groups. -/
def periodCity (freq : Nat) (rows : List Row) (r : Row) : Nat :=
  idxOf (clusterKey freq r) (uniqueKeys freq rows)

/-- The local data after `data.sort_values("period_city")`. -/
def dataSorted (freq : Nat) (rows : List Row) : List Row :=
  List.insertionSort (fun a b => periodCity freq rows a ≤ periodCity freq rows b) rows

/-- The coin of cluster `j` in replicate `i`, when each replicate consumes `K`
coins: `np.random.binomial(1, 0.5, K)` is modelled as reading `K` consecutive
Booleans from the stream. -/
def coinAt (coins : Nat → Bool) (K i j : Nat) : Bool := coins (i * K + j)

/-- `variant = unique_PeriodCity[binom == 1]`: the clusters whose coin landed
on 1 in replicate `i`. -/
def variantClusters (freq : Nat) (rows : List Row) (coins : Nat → Bool) (i : Nat) :
    List (Nat × Nat) :=
  ((uniqueKeys freq rows).enum.filter
      (fun p => coinAt coins (numClusters freq rows) i p.1)).map Prod.snd

/-- The `variant` column value of a row in replicate `i`: 1 when the cluster
of the row is in the variant group and 0 otherwise. -/
def rowVariant (freq : Nat) (rows : List Row) (coins : Nat → Bool) (i : Nat) (r : Row) : ℚ :=
  if clusterKey freq r ∈ variantClusters freq rows coins i then 1 else 0

/-- The `outcome_sim` column value of a row in replicate `i`: the outcome, and
the outcome scaled by `MDE` on the rows whose `variant` value is 1. -/
def rowOutcomeSim (freq : Nat) (rows : List Row) (coins : Nat → Bool) (MDE : ℚ)
    (i : Nat) (r : Row) : ℚ :=
  if rowVariant freq rows coins i r = 1 then r.outcome * MDE else r.outcome

/-- The outcome column of the (sorted) order-level data. -/
def outcomeCol (freq : Nat) (rows : List Row) : List ℚ :=
  (dataSorted freq rows).map Row.outcome

/-- The `variant` column of the order-level data in replicate `i`. -/
def variantCol (freq : Nat) (rows : List Row) (coins : Nat → Bool) (i : Nat) : List ℚ :=
  (dataSorted freq rows).map (rowVariant freq rows coins i)

/-- The `outcome_sim` column of the order-level data in replicate `i`. -/
def outcomeSimCol (freq : Nat) (rows : List Row) (coins : Nat → Bool) (MDE : ℚ)
    (i : Nat) : List ℚ :=
  (dataSorted freq rows).map (rowOutcomeSim freq rows coins MDE i)

/-- The `period_city` column of the order-level data, used as the grouping
vector of the cluster-robust covariance and of the mixed model. -/
def periodCityCol (freq : Nat) (rows : List Row) : List Nat :=
  (dataSorted freq rows).map (periodCity freq rows)

/-- The distinct aggregation-branch cluster keys in sorted group order. -/
def uniqueAggKeys (freq : Nat) (rows : List Row) : List (Nat × Nat) :=
  (List.insertionSort keyLe (rows.map (aggKey freq))).dedup

/-- The rows belonging to aggregation cluster `k`. -/
def clusterRows (freq : Nat) (rows : List Row) (k : Nat × Nat) : List Row :=
  rows.filter (fun r => aggKey freq r = k)

/-- Arithmetic mean of a rational column (only applied to nonempty columns by
the aggregation, whose groups each contain at least one row). -/
def meanQ (xs : List ℚ) : ℚ := xs.sum / (xs.length : ℚ)

/-- One row of the aggregated view `data_agg`: its cluster key (the groupby
index) and the within-cluster means of the numeric columns. -/
structure AggRow where
  key : Nat × Nat
  outcome : ℚ
  controls : List ℚ
deriving DecidableEq

/-- `data_agg = data.groupby([location_var, Grouper(time_var, freq)]).mean()`:
one row per distinct cluster, numeric columns reduced by the within-cluster
mean.  `nc` is the number of control columns. -/
def dataAgg (freq nc : Nat) (rows : List Row) : List AggRow :=
  (uniqueAggKeys freq rows).map (fun k =>
    { key := k
      outcome := meanQ ((clusterRows freq rows k).map Row.outcome)
      controls := (List.range nc).map (fun j =>
        meanQ ((clusterRows freq rows k).map (fun r => r.controls.getD j 0))) })

/-- `len(data_agg)`: the number of rows of the aggregated view. -/
def numAggClusters (freq nc : Nat) (rows : List Row) : Nat :=
  (dataAgg freq nc rows).length

/-- The `variant` value of aggregated row `j` in replicate `i` (each
aggregated row is one cluster, so it receives its own coin). -/
def aggRowVariant (freq nc : Nat) (rows : List Row) (coins : Nat → Bool) (i j : Nat) : ℚ :=
  if coinAt coins (numAggClusters freq nc rows) i j then 1 else 0

/-- The `variant` column of the aggregated view in replicate `i`. -/
def variantColAgg (freq nc : Nat) (rows : List Row) (coins : Nat → Bool) (i : Nat) : List ℚ :=
  (List.range (numAggClusters freq nc rows)).map (aggRowVariant freq nc rows coins i)

/-- The outcome column of the aggregated view. -/
def outcomeAggCol (freq nc : Nat) (rows : List Row) : List ℚ :=
  (dataAgg freq nc rows).map AggRow.outcome

/-- The `outcome_sim` column of the aggregated view in replicate `i`. -/
def outcomeSimAggCol (freq nc : Nat) (rows : List Row) (coins : Nat → Bool) (MDE : ℚ)
    (i : Nat) : List ℚ :=
  (dataAgg freq nc rows).enum.map (fun p =>
    if aggRowVariant freq nc rows coins i p.1 = 1 then p.2.outcome * MDE else p.2.outcome)

/-- Covariance option of an OLS fit: the default covariance, or the
cluster-robust covariance with its grouping vector
(`cov_type="cluster", cov_kwds=groups`). -/
inductive Cov where
  | plain : Cov
  | cluster : List Nat → Cov
deriving DecidableEq

/-- One call to an external estimator.  `ols endog treat cov` is
`sm.OLS(endog, add_constant(treat)).fit(cov)` — outcome regressed on an
intercept and the treatment column; `mixedlm endog treat groups` is
`smf.mixedlm("endog ~ variant", groups)` — the mixed model with the cluster
labels as random-effect groups.  The p-value oracle applied to a `FitCall`
returns `pvalues.loc["variant"]`, the two-sided p-value of the treatment
coefficient of that fit. -/
inductive FitCall where
  | ols : List ℚ → List ℚ → Cov → FitCall
  | mixedlm : List ℚ → List ℚ → List Nat → FitCall
deriving DecidableEq

/-- The endogenous (response) column of a fit. -/
def FitCall.endog : FitCall → List ℚ
  | .ols e _ _ => e
  | .mixedlm e _ _ => e

/-- The significance level: `alpha = 0.05`. -/
def alpha : ℚ := 5 / 100

/-- `float(p_value < alpha)`: the 0/1 significance indicator of a p-value. -/
def indicator (p : ℚ) : ℚ := if p < alpha then 1 else 0

/-- The A/A (null) fit of replicate `i` under the selected method and mode:
the real outcome regressed on the treatment column. -/
def fitAA (freq nc : Nat) (rows : List Row) (coins : Nat → Bool)
    (method : String) (agg : Bool) (i : Nat) : FitCall :=
  if agg then
    .ols (outcomeAggCol freq nc rows) (variantColAgg freq nc rows coins i) .plain
  else if method = "ols" then
    .ols (outcomeCol freq rows) (variantCol freq rows coins i)
      (.cluster (periodCityCol freq rows))
  else
    .mixedlm (outcomeCol freq rows) (variantCol freq rows coins i)
      (periodCityCol freq rows)

/-- The A/B (injected-effect) fit of replicate `i`: the synthetic outcome
regressed on the treatment column. -/
def fitAB (freq nc : Nat) (rows : List Row) (coins : Nat → Bool) (MDE : ℚ)
    (method : String) (agg : Bool) (i : Nat) : FitCall :=
  if agg then
    .ols (outcomeSimAggCol freq nc rows coins MDE i) (variantColAgg freq nc rows coins i) .plain
  else if method = "ols" then
    .ols (outcomeSimCol freq rows coins MDE i) (variantCol freq rows coins i)
      (.cluster (periodCityCol freq rows))
  else
    .mixedlm (outcomeSimCol freq rows coins MDE i) (variantCol freq rows coins i)
      (periodCityCol freq rows)

/-- `significant_resultsAA`: the null-significance indicators of all `sims`
replicates. -/
def indicatorsAA (pv : FitCall → ℚ) (freq nc : Nat) (rows : List Row) (coins : Nat → Bool)
    (sims : Nat) (method : String) (agg : Bool) : List ℚ :=
  (List.range sims).map (fun i => indicator (pv (fitAA freq nc rows coins method agg i)))

/-- `significant_resultsAB`: the injected-effect significance indicators of
all `sims` replicates. -/
def indicatorsAB (pv : FitCall → ℚ) (freq nc : Nat) (rows : List Row) (coins : Nat → Bool)
    (MDE : ℚ) (sims : Nat) (method : String) (agg : Bool) : List ℚ :=
  (List.range sims).map (fun i => indicator (pv (fitAB freq nc rows coins MDE method agg i)))

/-- `np.mean`: `none` models the NaN produced on an empty collection. -/
def npMean (xs : List ℚ) : Option ℚ :=
  if xs.length = 0 then none else some (xs.sum / (xs.length : ℚ))

/-- The returned performance pair `(typeI_error, power)`. -/
structure MQOutput where
  typeI : Option ℚ
  power : Option ℚ
deriving DecidableEq

/-- Instrumentation of one call: whether the local data copy was made, how
many random draws were consumed, and the estimator fits performed, in order. -/
structure MQTrace where
  copied : Bool
  draws : Nat
  fits : List FitCall
deriving DecidableEq

/-- Everything a call to `ModelQuality` yields: the returned value or the
raised error, the work trace, and the dataframe the caller holds after the
call. -/
structure MQRet where
  result : Except String MQOutput
  trace : MQTrace
  callerData : List Row

/-- The number of coins one replicate consumes: one per aggregated row in
aggregation mode, one per distinct cluster otherwise. -/
def Keff (freq nc : Nat) (rows : List Row) (agg : Bool) : Nat :=
  if agg then numAggClusters freq nc rows else numClusters freq rows

/-- Shallow embedding of `ModelQuality`.  Configuration is validated first;
then the engine copies the selected columns (all later column writes land on
the copy, never on the caller frame), builds the cluster structure, and runs
`sims` independent replicates, each drawing one coin per cluster, building the
`variant` and `outcome_sim` columns, performing the A/A and the A/B fit, and
recording both significance indicators; the two indicator series are reduced
by `np.mean`.  Successive replicates overwrite the same local columns and
read only the base columns, so the loop is expressed by its per-replicate
values. -/
def ModelQuality (pv : FitCall → ℚ) (coins : Nat → Bool) (rows : List Row)
    (freq nc : Nat) (MDE : ℚ) (sims : Nat) (method : String) (agg : Bool) : MQRet :=
  if method ∉ (["ols", "mlm"] : List String) then
    ⟨.error ("Function not implemented for method " ++ method), ⟨false, 0, []⟩, rows⟩
  else if agg ∧ method = "mlm" then
    ⟨.error "Aggregation not supported for method mlm", ⟨false, 0, []⟩, rows⟩
  else
    ⟨.ok ⟨npMean (indicatorsAA pv freq nc rows coins sims method agg),
          npMean (indicatorsAB pv freq nc rows coins MDE sims method agg)⟩,
     ⟨true, sims * Keff freq nc rows agg,
      (List.range sims).flatMap
        (fun i => [fitAA freq nc rows coins method agg i,
                   fitAB freq nc rows coins MDE method agg i])⟩,
     rows⟩

/-! Supporting lemmas. -/

theorem dataSorted_perm (freq : Nat) (rows : List Row) :
    List.Perm (dataSorted freq rows) rows :=
  List.perm_insertionSort _ rows

theorem dataSorted_length (freq : Nat) (rows : List Row) :
    (dataSorted freq rows).length = rows.length :=
  (dataSorted_perm freq rows).length_eq

theorem numClusters_eq_card (freq : Nat) (rows : List Row) :
    numClusters freq rows = (rows.map (clusterKey freq)).toFinset.card := by
  have hperm : List.Perm (List.insertionSort keyLe (rows.map (clusterKey freq)))
      (rows.map (clusterKey freq)) :=
    List.perm_insertionSort _ _
  rw [List.card_toFinset]
  exact hperm.dedup.length_eq

theorem uniqueAggKeys_perm_dedup (freq : Nat) (rows : List Row) :
    List.Perm (uniqueAggKeys freq rows) ((rows.map (aggKey freq)).dedup) :=
  (List.perm_insertionSort keyLe (rows.map (aggKey freq))).dedup

theorem numAggClusters_eq_card (freq nc : Nat) (rows : List Row) :
    numAggClusters freq nc rows = (rows.map (aggKey freq)).toFinset.card := by
  rw [List.card_toFinset]
  unfold numAggClusters dataAgg
  rw [List.length_map]
  exact (uniqueAggKeys_perm_dedup freq rows).length_eq

theorem uniqueAggKeys_nodup (freq : Nat) (rows : List Row) :
    (uniqueAggKeys freq rows).Nodup :=
  List.nodup_dedup _

theorem uniqueAggKeys_mem (freq : Nat) (rows : List Row) (k : Nat × Nat) :
    k ∈ uniqueAggKeys freq rows ↔ k ∈ rows.map (aggKey freq) := by
  rw [(uniqueAggKeys_perm_dedup freq rows).mem_iff, List.mem_dedup]

theorem indicator_cases (p : ℚ) : indicator p = 0 ∨ indicator p = 1 := by
  unfold indicator
  split
  · exact Or.inr rfl
  · exact Or.inl rfl

theorem sum_le_length (xs : List ℚ) (h : ∀ x ∈ xs, x ≤ 1) : xs.sum ≤ (xs.length : ℚ) := by
  induction xs with
  | nil => simp
  | cons a l ih =>
    simp only [List.sum_cons, List.length_cons]
    push_cast
    have ha : a ≤ 1 := h a (by simp)
    have hl : l.sum ≤ (l.length : ℚ) := ih (fun x hx => h x (by simp [hx]))
    linarith

theorem npMean_some (xs : List ℚ) (h : xs.length ≠ 0) :
    npMean xs = some (xs.sum / (xs.length : ℚ)) := by
  unfold npMean
  rw [if_neg h]

theorem indicatorsAA_length (pv : FitCall → ℚ) (freq nc : Nat) (rows : List Row)
    (coins : Nat → Bool) (sims : Nat) (method : String) (agg : Bool) :
    (indicatorsAA pv freq nc rows coins sims method agg).length = sims := by
  unfold indicatorsAA
  rw [List.length_map, List.length_range]

theorem indicatorsAB_length (pv : FitCall → ℚ) (freq nc : Nat) (rows : List Row)
    (coins : Nat → Bool) (MDE : ℚ) (sims : Nat) (method : String) (agg : Bool) :
    (indicatorsAB pv freq nc rows coins MDE sims method agg).length = sims := by
  unfold indicatorsAB
  rw [List.length_map, List.length_range]

theorem ModelQuality_ok (pv : FitCall → ℚ) (coins : Nat → Bool) (rows : List Row)
    (freq nc : Nat) (MDE : ℚ) (sims : Nat) (method : String) (agg : Bool)
    (h1 : method ∈ (["ols", "mlm"] : List String)) (h2 : ¬(agg ∧ method = "mlm")) :
    ModelQuality pv coins rows freq nc MDE sims method agg =
      ⟨.ok ⟨npMean (indicatorsAA pv freq nc rows coins sims method agg),
             npMean (indicatorsAB pv freq nc rows coins MDE sims method agg)⟩,
       ⟨true, sims * Keff freq nc rows agg,
        (List.range sims).flatMap
          (fun i => [fitAA freq nc rows coins method agg i,
                     fitAB freq nc rows coins MDE method agg i])⟩,
       rows⟩ := by
  unfold ModelQuality
  rw [if_neg (not_not_intro h1), if_neg h2]

/-! Claim theorems. -/

/-- C8: `ModelQuality` never mutates the dataset of the caller: whether the
call returns normally or raises a configuration error, the dataframe the
caller holds afterwards is exactly the one it held before the call (the
engine works only on a private copy of the selected columns). -/
theorem claim_C8 (pv : FitCall → ℚ) (coins : Nat → Bool) (rows : List Row)
    (freq nc : Nat) (MDE : ℚ) (sims : Nat) (method : String) (agg : Bool) :
    (ModelQuality pv coins rows freq nc MDE sims method agg).callerData = rows := by
  unfold ModelQuality
  split
  · rfl
  · split
    · rfl
    · rfl

/-- C5: within any single replicate, any two rows sharing the same
region-time cluster key receive the same `variant` label, and the label of
every row is 0 or 1. -/
theorem claim_C5 (freq : Nat) (rows : List Row) (coins : Nat → Bool) (i : Nat)
    (r s : Row) (h : clusterKey freq r = clusterKey freq s) :
    rowVariant freq rows coins i r = rowVariant freq rows coins i s ∧
    (rowVariant freq rows coins i r = 0 ∨ rowVariant freq rows coins i r = 1) := by
  constructor
  · unfold rowVariant
    rw [h]
  · unfold rowVariant
    split
    · exact Or.inr rfl
    · exact Or.inl rfl

/-- C5 witness: two rows with the same timestamp and location share the
cluster key, hence the label, at a concrete input. -/
theorem claim_C5_witness :
    clusterKey 1 ⟨0, 0, 3, []⟩ = clusterKey 1 ⟨0, 0, 4, []⟩ ∧
    (rowVariant 1 [⟨0, 0, 3, []⟩, ⟨0, 0, 4, []⟩] (fun _ => true) 0 ⟨0, 0, 3, []⟩ =
       rowVariant 1 [⟨0, 0, 3, []⟩, ⟨0, 0, 4, []⟩] (fun _ => true) 0 ⟨0, 0, 4, []⟩ ∧
     (rowVariant 1 [⟨0, 0, 3, []⟩, ⟨0, 0, 4, []⟩] (fun _ => true) 0 ⟨0, 0, 3, []⟩ = 0 ∨
      rowVariant 1 [⟨0, 0, 3, []⟩, ⟨0, 0, 4, []⟩] (fun _ => true) 0 ⟨0, 0, 3, []⟩ = 1)) :=
  ⟨rfl, claim_C5 1 [⟨0, 0, 3, []⟩, ⟨0, 0, 4, []⟩] (fun _ => true) 0 ⟨0, 0, 3, []⟩ ⟨0, 0, 4, []⟩ rfl⟩

/-- C2: on an unrecognized method, or on aggregation combined with the mixed
model, `ModelQuality` raises a configuration error; its trace shows that no
data copy was made, no random draw was consumed and no model was fitted, and
the caller dataframe is untouched. -/
theorem claim_C2 (pv : FitCall → ℚ) (coins : Nat → Bool) (rows : List Row)
    (freq nc : Nat) (MDE : ℚ) (sims : Nat) (method : String) (agg : Bool)
    (hv : method ∉ (["ols", "mlm"] : List String) ∨ (agg = true ∧ method = "mlm")) :
    ∃ e, (ModelQuality pv coins rows freq nc MDE sims method agg).result = .error e ∧
      (ModelQuality pv coins rows freq nc MDE sims method agg).trace =
        ⟨false, 0, []⟩ ∧
      (ModelQuality pv coins rows freq nc MDE sims method agg).callerData = rows := by
  rcases hv with hv | ⟨ha, hm⟩
  · refine ⟨"Function not implemented for method " ++ method, ?_⟩
    unfold ModelQuality
    rw [if_pos hv]
    exact ⟨rfl, rfl, rfl⟩
  · subst hm
    subst ha
    refine ⟨"Aggregation not supported for method mlm", ?_⟩
    unfold ModelQuality
    rw [if_neg (by decide), if_pos (by simp)]
    exact ⟨rfl, rfl, rfl⟩

/-- C2 witness: the unrecognized method "glm" raises, with an empty trace. -/
theorem claim_C2_witness :
    (("glm" : String) ∉ (["ols", "mlm"] : List String) ∨
      (false = true ∧ ("glm" : String) = "mlm")) ∧
    ∃ e, (ModelQuality (fun _ => 0) (fun _ => true) [] 1 0 1 5 "glm" false).result = .error e ∧
      (ModelQuality (fun _ => 0) (fun _ => true) [] 1 0 1 5 "glm" false).trace =
        ⟨false, 0, []⟩ ∧
      (ModelQuality (fun _ => 0) (fun _ => true) [] 1 0 1 5 "glm" false).callerData = [] :=
  ⟨Or.inl (by decide),
   claim_C2 (fun _ => 0) (fun _ => true) [] 1 0 1 5 "glm" false (Or.inl (by decide))⟩

/-- C10: with `sims = 0` and any supported configuration, `ModelQuality` does
not raise: the replicate loop runs zero times (no fits, no draws) and each
returned value is the `np.mean` of an empty indicator collection, which is
NaN (modelled as `none`) — so the [0, 1] guarantee indeed needs the unchecked
precondition `sims ≥ 1`. -/
theorem claim_C10 (pv : FitCall → ℚ) (coins : Nat → Bool) (rows : List Row)
    (freq nc : Nat) (MDE : ℚ) :
    (ModelQuality pv coins rows freq nc MDE 0 "ols" false).result = .ok ⟨none, none⟩ ∧
    (ModelQuality pv coins rows freq nc MDE 0 "ols" true).result = .ok ⟨none, none⟩ ∧
    (ModelQuality pv coins rows freq nc MDE 0 "mlm" false).result = .ok ⟨none, none⟩ ∧
    (ModelQuality pv coins rows freq nc MDE 0 "ols" false).trace.fits = [] ∧
    (ModelQuality pv coins rows freq nc MDE 0 "ols" false).trace.draws = 0 ∧
    npMean [] = none := by
  rw [ModelQuality_ok pv coins rows freq nc MDE 0 "ols" false (by decide) (by simp),
      ModelQuality_ok pv coins rows freq nc MDE 0 "ols" true (by decide) (by simp),
      ModelQuality_ok pv coins rows freq nc MDE 0 "mlm" false (by decide) (by simp)]
  refine ⟨rfl, rfl, rfl, ?_, ?_, rfl⟩
  · simp
  · simp

/-- C4: in each mode the randomizer consumes exactly one Bernoulli draw per
distinct region-time cluster and replicate, never one per observation: the
total number of draws is `sims` times the number of distinct cluster keys
present in the data. -/
theorem claim_C4 (pv : FitCall → ℚ) (coins : Nat → Bool) (rows : List Row)
    (freq nc : Nat) (MDE : ℚ) (sims : Nat) :
    (ModelQuality pv coins rows freq nc MDE sims "ols" false).trace.draws =
      sims * (rows.map (clusterKey freq)).toFinset.card ∧
    (ModelQuality pv coins rows freq nc MDE sims "ols" true).trace.draws =
      sims * (rows.map (aggKey freq)).toFinset.card := by
  rw [ModelQuality_ok pv coins rows freq nc MDE sims "ols" false (by decide) (by simp),
      ModelQuality_ok pv coins rows freq nc MDE sims "ols" true (by decide) (by simp)]
  constructor
  · show sims * Keff freq nc rows false = _
    rw [Keff, if_neg (by simp), numClusters_eq_card]
  · show sims * Keff freq nc rows true = _
    rw [Keff, if_pos rfl, numAggClusters_eq_card]

/-- C1: for every valid input — `sims ≥ 1` and a supported method/aggregation
combination — `ModelQuality` returns the ordered pair of the Type I error
rate and the power, each the arithmetic mean of exactly `sims` 0/1
significance indicators (indicator = p-value below `alpha = 0.05`), and each
therefore lying in [0, 1]. -/
theorem claim_C1 (pv : FitCall → ℚ) (coins : Nat → Bool) (rows : List Row)
    (freq nc : Nat) (MDE : ℚ) (sims : Nat) (method : String) (agg : Bool)
    (hs : 1 ≤ sims)
    (hv : method = "ols" ∨ (method = "mlm" ∧ agg = false)) :
    ∃ t p : ℚ,
      (ModelQuality pv coins rows freq nc MDE sims method agg).result =
        .ok ⟨some t, some p⟩ ∧
      t = (indicatorsAA pv freq nc rows coins sims method agg).sum / (sims : ℚ) ∧
      p = (indicatorsAB pv freq nc rows coins MDE sims method agg).sum / (sims : ℚ) ∧
      (indicatorsAA pv freq nc rows coins sims method agg).length = sims ∧
      (indicatorsAB pv freq nc rows coins MDE sims method agg).length = sims ∧
      (∀ x ∈ indicatorsAA pv freq nc rows coins sims method agg, x = 0 ∨ x = 1) ∧
      (∀ x ∈ indicatorsAB pv freq nc rows coins MDE sims method agg, x = 0 ∨ x = 1) ∧
      0 ≤ t ∧ t ≤ 1 ∧ 0 ≤ p ∧ p ≤ 1 := by
  have h1 : method ∈ (["ols", "mlm"] : List String) := by
    rcases hv with h | ⟨h, _⟩ <;> simp [h]
  have h2 : ¬(agg ∧ method = "mlm") := by
    rcases hv with h | ⟨h, ha⟩
    · subst h
      simp
    · subst h
      subst ha
      simp
  have hAAmem : ∀ x ∈ indicatorsAA pv freq nc rows coins sims method agg, x = 0 ∨ x = 1 := by
    intro x hx
    unfold indicatorsAA at hx
    rcases List.mem_map.mp hx with ⟨i, _, hix⟩
    rw [← hix]
    exact indicator_cases _
  have hABmem : ∀ x ∈ indicatorsAB pv freq nc rows coins MDE sims method agg,
      x = 0 ∨ x = 1 := by
    intro x hx
    unfold indicatorsAB at hx
    rcases List.mem_map.mp hx with ⟨i, _, hix⟩
    rw [← hix]
    exact indicator_cases _
  have hspos : (0 : ℚ) < (sims : ℚ) := by
    exact_mod_cast Nat.lt_of_lt_of_le Nat.zero_lt_one hs
  have hmean : ∀ xs : List ℚ, xs.length = sims → (∀ x ∈ xs, x = 0 ∨ x = 1) →
      0 ≤ xs.sum / (sims : ℚ) ∧ xs.sum / (sims : ℚ) ≤ 1 := by
    intro xs hlen hmem
    have h0 : 0 ≤ xs.sum := by
      apply List.sum_nonneg
      intro x hx
      rcases hmem x hx with h | h <;> rw [h]
      all_goals norm_num
    have h1' : xs.sum ≤ (sims : ℚ) := by
      have := sum_le_length xs (fun x hx => by
        rcases hmem x hx with h | h <;> rw [h]
        all_goals norm_num)
      rwa [hlen] at this
    constructor
    · exact div_nonneg h0 (le_of_lt hspos)
    · rw [div_le_one hspos]
      exact h1'
  have hlenAA := indicatorsAA_length pv freq nc rows coins sims method agg
  have hlenAB := indicatorsAB_length pv freq nc rows coins MDE sims method agg
  have hAAbd := hmean _ hlenAA hAAmem
  have hABbd := hmean _ hlenAB hABmem
  refine ⟨(indicatorsAA pv freq nc rows coins sims method agg).sum / (sims : ℚ),
          (indicatorsAB pv freq nc rows coins MDE sims method agg).sum / (sims : ℚ),
          ?_, rfl, rfl, hlenAA, hlenAB, hAAmem, hABmem,
          hAAbd.1, hAAbd.2, hABbd.1, hABbd.2⟩
  rw [ModelQuality_ok pv coins rows freq nc MDE sims method agg h1 h2,
      npMean_some (indicatorsAA pv freq nc rows coins sims method agg)
        (by rw [hlenAA]; exact Nat.one_le_iff_ne_zero.mp hs),
      npMean_some (indicatorsAB pv freq nc rows coins MDE sims method agg)
        (by rw [hlenAB]; exact Nat.one_le_iff_ne_zero.mp hs),
      hlenAA, hlenAB]

/-- C1 witness: a concrete valid call (one row, one replicate, always
significant p-values) returns the pair at a concrete input. -/
theorem claim_C1_witness :
    (1 ≤ 1 ∧ (("ols" : String) = "ols" ∨ (("ols" : String) = "mlm" ∧ false = false))) ∧
    ∃ t p : ℚ,
      (ModelQuality (fun _ => 0) (fun _ => true) [⟨0, 0, 1, []⟩] 1 0 2 1 "ols" false).result =
        .ok ⟨some t, some p⟩ ∧
      t = (indicatorsAA (fun _ => 0) 1 0 [⟨0, 0, 1, []⟩] (fun _ => true) 1 "ols" false).sum /
            ((1 : Nat) : ℚ) ∧
      p = (indicatorsAB (fun _ => 0) 1 0 [⟨0, 0, 1, []⟩] (fun _ => true) 2 1 "ols" false).sum /
            ((1 : Nat) : ℚ) ∧
      (indicatorsAA (fun _ => 0) 1 0 [⟨0, 0, 1, []⟩] (fun _ => true) 1 "ols" false).length = 1 ∧
      (indicatorsAB (fun _ => 0) 1 0 [⟨0, 0, 1, []⟩] (fun _ => true) 2 1 "ols" false).length = 1 ∧
      (∀ x ∈ indicatorsAA (fun _ => 0) 1 0 [⟨0, 0, 1, []⟩] (fun _ => true) 1 "ols" false,
        x = 0 ∨ x = 1) ∧
      (∀ x ∈ indicatorsAB (fun _ => 0) 1 0 [⟨0, 0, 1, []⟩] (fun _ => true) 2 1 "ols" false,
        x = 0 ∨ x = 1) ∧
      0 ≤ t ∧ t ≤ 1 ∧ 0 ≤ p ∧ p ≤ 1 :=
  ⟨⟨le_refl 1, Or.inl rfl⟩,
   claim_C1 (fun _ => 0) (fun _ => true) [⟨0, 0, 1, []⟩] 1 0 2 1 "ols" false
     (le_refl 1) (Or.inl rfl)⟩

theorem outcomeCol_length (freq : Nat) (rows : List Row) :
    (outcomeCol freq rows).length = rows.length := by
  unfold outcomeCol
  rw [List.length_map, dataSorted_length]

theorem periodCityCol_length (freq : Nat) (rows : List Row) :
    (periodCityCol freq rows).length = rows.length := by
  unfold periodCityCol
  rw [List.length_map, dataSorted_length]

theorem variantCol_length (freq : Nat) (rows : List Row) (coins : Nat → Bool) (i : Nat) :
    (variantCol freq rows coins i).length = rows.length := by
  unfold variantCol
  rw [List.length_map, dataSorted_length]

theorem outcomeSimCol_length (freq : Nat) (rows : List Row) (coins : Nat → Bool)
    (MDE : ℚ) (i : Nat) :
    (outcomeSimCol freq rows coins MDE i).length = rows.length := by
  unfold outcomeSimCol
  rw [List.length_map, dataSorted_length]

theorem fitAA_ols_order (freq nc : Nat) (rows : List Row) (coins : Nat → Bool) (i : Nat) :
    fitAA freq nc rows coins "ols" false i =
      FitCall.ols (outcomeCol freq rows) (variantCol freq rows coins i)
        (Cov.cluster (periodCityCol freq rows)) := by
  simp [fitAA]

theorem fitAB_ols_order (freq nc : Nat) (rows : List Row) (coins : Nat → Bool)
    (MDE : ℚ) (i : Nat) :
    fitAB freq nc rows coins MDE "ols" false i =
      FitCall.ols (outcomeSimCol freq rows coins MDE i) (variantCol freq rows coins i)
        (Cov.cluster (periodCityCol freq rows)) := by
  simp [fitAB]

/-- C6: in order-level mode with the OLS method, the fits performed are, for
each replicate, exactly the null fit of the real outcome on the treatment
column and the injected fit of the synthetic outcome on the treatment column,
each an OLS over columns of length `rows.length` (every raw observation) and
each with the cluster-robust covariance grouped by the `period_city` labels —
never the plain covariance.  The p-value the oracle returns for such a
`FitCall` is by convention that of the treatment coefficient. -/
theorem claim_C6 (pv : FitCall → ℚ) (coins : Nat → Bool) (rows : List Row)
    (freq nc : Nat) (MDE : ℚ) (sims : Nat) :
    (ModelQuality pv coins rows freq nc MDE sims "ols" false).trace.fits =
      (List.range sims).flatMap (fun i =>
        [FitCall.ols (outcomeCol freq rows) (variantCol freq rows coins i)
           (Cov.cluster (periodCityCol freq rows)),
         FitCall.ols (outcomeSimCol freq rows coins MDE i) (variantCol freq rows coins i)
           (Cov.cluster (periodCityCol freq rows))]) ∧
    (outcomeCol freq rows).length = rows.length ∧
    (periodCityCol freq rows).length = rows.length ∧
    (∀ i, (variantCol freq rows coins i).length = rows.length ∧
          (outcomeSimCol freq rows coins MDE i).length = rows.length) := by
  refine ⟨?_, outcomeCol_length freq rows, periodCityCol_length freq rows,
    fun i => ⟨variantCol_length freq rows coins i, outcomeSimCol_length freq rows coins MDE i⟩⟩
  rw [ModelQuality_ok pv coins rows freq nc MDE sims "ols" false (by decide) (by simp)]
  show (List.range sims).flatMap _ = _
  simp only [fitAA_ols_order, fitAB_ols_order]

/-- C7: in aggregation mode the simulation operates on the aggregated view:
exactly one row per distinct (location, time-bucket) cluster key (its key
column is duplicate-free and carries exactly the keys present in the data),
with the numeric columns reduced by the within-cluster mean; both fits of
every replicate then regress aggregated columns.  Without aggregation, the
fitted columns keep one entry per raw observation. -/
theorem claim_C7 (coins : Nat → Bool) (rows : List Row) (freq nc : Nat) (MDE : ℚ) :
    ((dataAgg freq nc rows).map AggRow.key).Nodup ∧
    (∀ k, k ∈ (dataAgg freq nc rows).map AggRow.key ↔ k ∈ rows.map (aggKey freq)) ∧
    (dataAgg freq nc rows = (uniqueAggKeys freq rows).map (fun k =>
      ⟨k, meanQ ((clusterRows freq rows k).map Row.outcome),
          (List.range nc).map (fun j =>
            meanQ ((clusterRows freq rows k).map (fun r => r.controls.getD j 0)))⟩)) ∧
    (∀ i, (fitAA freq nc rows coins "ols" true i).endog = outcomeAggCol freq nc rows ∧
          (fitAB freq nc rows coins MDE "ols" true i).endog =
            outcomeSimAggCol freq nc rows coins MDE i ∧
          (outcomeAggCol freq nc rows).length = (dataAgg freq nc rows).length) ∧
    (∀ i, (fitAA freq nc rows coins "ols" false i).endog = outcomeCol freq rows ∧
          (outcomeCol freq rows).length = rows.length) := by
  have hmapkey : (dataAgg freq nc rows).map AggRow.key = uniqueAggKeys freq rows := by
    unfold dataAgg
    rw [List.map_map]
    exact List.map_id _
  refine ⟨?_, ?_, rfl, ?_, ?_⟩
  · rw [hmapkey]
    exact uniqueAggKeys_nodup freq rows
  · intro k
    rw [hmapkey]
    exact uniqueAggKeys_mem freq rows k
  · intro i
    refine ⟨?_, ?_, ?_⟩
    · simp [fitAA, FitCall.endog]
    · simp [fitAB, FitCall.endog]
    · unfold outcomeAggCol
      rw [List.length_map]
  · intro i
    refine ⟨?_, outcomeCol_length freq rows⟩
    rw [fitAA_ols_order]
    rfl

theorem zipWith_map_same {α β γ δ : Type} (f : β → γ → δ) (g : α → β) (h : α → γ)
    (l : List α) :
    List.zipWith f (l.map g) (l.map h) = l.map (fun a => f (g a) (h a)) := by
  induction l with
  | nil => rfl
  | cons a t ih => simp [ih]

theorem zipWith_map_both {α₁ α₂ β₁ β₂ γ : Type} (f : β₁ → β₂ → γ) (g : α₁ → β₁)
    (h : α₂ → β₂) (l₁ : List α₁) (l₂ : List α₂) :
    List.zipWith f (l₁.map g) (l₂.map h) =
      List.zipWith (fun a b => f (g a) (h b)) l₁ l₂ := by
  induction l₁ generalizing l₂ with
  | nil => rfl
  | cons a t ih =>
    cases l₂ with
    | nil => rfl
    | cons b u => simp [ih]

theorem enumFrom_map_pairs {α β : Type} (g : Nat → α → β) (n : Nat) (l : List α) :
    (List.enumFrom n l).map (fun p => g p.1 p.2) =
      List.zipWith g (List.range' n l.length) l := by
  induction l generalizing n with
  | nil => rfl
  | cons a t ih => simp [List.range', ih]

theorem enumFrom_map_snd_comp {α β : Type} (f : α → β) (n : Nat) (l : List α) :
    (List.enumFrom n l).map (fun p => f p.2) = l.map f := by
  induction l generalizing n with
  | nil => rfl
  | cons a t ih => simp [ih]

/-- C3: in every replicate the synthetic outcome column is the pointwise image
of the real outcome column — equal to it on rows whose label is not 1 and to
the real outcome times MDE on rows labelled 1 (likewise on the aggregated
view) — and the real outcome column is untouched: the A/A fit of the
replicate regresses the real outcome column while the A/B fit regresses the
synthetic one, so both are simultaneously available. -/
theorem claim_C3 (freq nc : Nat) (rows : List Row) (coins : Nat → Bool) (MDE : ℚ)
    (method : String) (agg : Bool) (i : Nat) :
    outcomeSimCol freq rows coins MDE i =
      List.zipWith (fun v y => if v = 1 then y * MDE else y)
        (variantCol freq rows coins i) (outcomeCol freq rows) ∧
    outcomeSimAggCol freq nc rows coins MDE i =
      List.zipWith (fun v y => if v = 1 then y * MDE else y)
        (variantColAgg freq nc rows coins i) (outcomeAggCol freq nc rows) ∧
    (fitAA freq nc rows coins method agg i).endog =
      (if agg then outcomeAggCol freq nc rows else outcomeCol freq rows) ∧
    (fitAB freq nc rows coins MDE method agg i).endog =
      (if agg then outcomeSimAggCol freq nc rows coins MDE i
       else outcomeSimCol freq rows coins MDE i) := by
  refine ⟨?_, ?_, ?_, ?_⟩
  · unfold outcomeSimCol variantCol outcomeCol
    rw [zipWith_map_same]
    rfl
  · unfold outcomeSimAggCol variantColAgg outcomeAggCol
    rw [zipWith_map_both, List.range_eq_range']
    exact enumFrom_map_pairs
      (fun j ar => if aggRowVariant freq nc rows coins i j = 1
                   then ar.outcome * MDE else ar.outcome)
      0 (dataAgg freq nc rows)
  · cases agg with
    | true => rfl
    | false =>
      by_cases hm : method = "ols"
      · rw [hm]
        rfl
      · unfold fitAA
        rw [if_neg (by simp), if_neg hm]
        rfl
  · cases agg with
    | true => rfl
    | false =>
      by_cases hm : method = "ols"
      · rw [hm]
        rfl
      · unfold fitAB
        rw [if_neg (by simp), if_neg hm]
        rfl

theorem rowOutcomeSim_one (freq : Nat) (rows : List Row) (coins : Nat → Bool)
    (i : Nat) (r : Row) :
    rowOutcomeSim freq rows coins 1 i r = r.outcome := by
  unfold rowOutcomeSim
  split
  · rw [mul_one]
  · rfl

theorem outcomeSimCol_one (freq : Nat) (rows : List Row) (coins : Nat → Bool) (i : Nat) :
    outcomeSimCol freq rows coins 1 i = outcomeCol freq rows := by
  unfold outcomeSimCol outcomeCol
  exact List.map_congr_left (fun r _ => rowOutcomeSim_one freq rows coins i r)

theorem outcomeSimAggCol_one (freq nc : Nat) (rows : List Row) (coins : Nat → Bool)
    (i : Nat) :
    outcomeSimAggCol freq nc rows coins 1 i = outcomeAggCol freq nc rows := by
  unfold outcomeSimAggCol outcomeAggCol
  have h1 : ((dataAgg freq nc rows).enum.map (fun p =>
      if aggRowVariant freq nc rows coins i p.1 = 1 then p.2.outcome * 1 else p.2.outcome)) =
      ((dataAgg freq nc rows).enum.map (fun p => p.2.outcome)) :=
    List.map_congr_left (fun p _ => by rw [mul_one]; exact ite_self _)
  rw [h1]
  exact enumFrom_map_snd_comp AggRow.outcome 0 (dataAgg freq nc rows)

theorem fitAB_one (freq nc : Nat) (rows : List Row) (coins : Nat → Bool)
    (method : String) (agg : Bool) (i : Nat) :
    fitAB freq nc rows coins 1 method agg i = fitAA freq nc rows coins method agg i := by
  cases agg with
  | true => simp [fitAA, fitAB, outcomeSimAggCol_one]
  | false =>
    by_cases hm : method = "ols"
    · simp [fitAA, fitAB, hm, outcomeSimCol_one]
    · simp [fitAA, fitAB, hm, outcomeSimCol_one]

/-- C9: with MDE = 1 the effect injection is the identity — the synthetic
outcome of every row (and aggregated row) equals the real outcome, so in each
replicate the A/B fit is the very same `FitCall` as the A/A fit, the two
significance indicators coincide, and the returned Type I error rate equals
the returned power, in every mode. -/
theorem claim_C9 (pv : FitCall → ℚ) (coins : Nat → Bool) (rows : List Row)
    (freq nc : Nat) (sims : Nat) (method : String) (agg : Bool) :
    (∀ i r, rowOutcomeSim freq rows coins 1 i r = r.outcome) ∧
    (∀ i, outcomeSimCol freq rows coins 1 i = outcomeCol freq rows) ∧
    (∀ i, outcomeSimAggCol freq nc rows coins 1 i = outcomeAggCol freq nc rows) ∧
    (∀ i, fitAB freq nc rows coins 1 method agg i = fitAA freq nc rows coins method agg i) ∧
    (ModelQuality pv coins rows freq nc 1 sims method agg).result.map MQOutput.typeI =
      (ModelQuality pv coins rows freq nc 1 sims method agg).result.map MQOutput.power := by
  refine ⟨rowOutcomeSim_one freq rows coins, outcomeSimCol_one freq rows coins,
    outcomeSimAggCol_one freq nc rows coins, fitAB_one freq nc rows coins method agg, ?_⟩
  by_cases h1 : method ∈ (["ols", "mlm"] : List String)
  · by_cases h2 : agg ∧ method = "mlm"
    · unfold ModelQuality
      rw [if_neg (not_not_intro h1), if_pos h2]
      rfl
    · rw [ModelQuality_ok pv coins rows freq nc 1 sims method agg h1 h2]
      have hAB : indicatorsAB pv freq nc rows coins 1 sims method agg =
          indicatorsAA pv freq nc rows coins sims method agg := by
        unfold indicatorsAA indicatorsAB
        exact List.map_congr_left
          (fun i _ => by rw [fitAB_one freq nc rows coins method agg i])
      show Except.map MQOutput.typeI (.ok ⟨_, _⟩) = Except.map MQOutput.power (.ok ⟨_, _⟩)
      rw [hAB]
      rfl
  · unfold ModelQuality
    rw [if_pos h1]
    rfl
